import Mathlib

/-!
Verification development for `brightsky/tasks.py`: the enqueue-deduplication
scheduler (`poll`) and the three-pass retention engine (`clean`), shallowly
embedded as pure Lean functions over explicit queue and database states.
-/

namespace BrightskyTasks

/-! ## Scheduler side (`poll`) -/

/-- A file discovered by the poller (`DWDPoller().poll()`); `poll` only reads
its `url` field; the fingerprint travels along unused. -/
structure UpdatedFile where
  url : String
  fingerprint : String
deriving DecidableEq

/-- Modelled from the spec: a queued task of the huey job queue
(`brightsky.worker`, not part of the shown sources). A task has a job name,
positional arguments and a priority; `process(url, priority)` submits a task
named `process` with arguments `[url]`. -/
structure Task where
  name : String
  args : List String
  priority : Int
deriving DecidableEq

/-- Modelled from the spec: the queue state of huey — the not-yet-started
tasks (`huey.pending()`) and the currently held locks with their ages
(`huey.is_locked`, `huey.expire_locks`). -/
structure QueueState where
  pending : List Task
  locks : List (String × Nat)
deriving DecidableEq

/-- Modelled from the spec: `huey.is_locked(key)` — whether a lock for `key`
is currently held. -/
def QueueState.isLocked (q : QueueState) (key : String) : Bool :=
  q.locks.any (fun kv => kv.1 == key)

/-- Modelled from the spec: the keys returned by `huey.expire_locks(maxAge)` —
every lock whose age exceeds `maxAge` is force-expired and reported. -/
def expireLocksKeys (maxAge : Nat) (q : QueueState) : List String :=
  (q.locks.filter (fun kv => decide (maxAge < kv.2))).map (fun kv => kv.1)

/-- Modelled from the spec: the queue state after `huey.expire_locks(maxAge)` —
locks whose age exceeds `maxAge` are removed, pending tasks are untouched. -/
def expireLocksState (maxAge : Nat) (q : QueueState) : QueueState :=
  { q with locks := q.locks.filter (fun kv => !(decide (maxAge < kv.2))) }

/-- `[t.args[0] for t in huey.pending() if t.name == 'process']` — the URLs of
the currently pending `process` tasks, as a list (duplicates preserved). -/
def pendingProcessUrls (q : QueueState) : List String :=
  (q.pending.filter (fun t => t.name == "process")).map (fun t => t.args.headD "")

/-- `os.path.basename`: the part of the path after the last slash (the
accumulator restarts at every slash, so at the end it holds the characters
after the last one). -/
def basename (s : String) : String :=
  String.mk (s.toList.foldl (fun acc c => if c = '/' then [] else acc ++ [c]) [])

/-- The log events `poll` emits, in order, with their payloads. -/
inductive LogEvent where
  | expiredLocksWarning (keys : List String)
  | skipQueued (url : String)
  | skipRunning (url : String)
  | enqueueing (url : String)
  | summary (enqueued : Nat) (queueSize : Nat)
deriving DecidableEq

/-- Result of the enqueue loop of `poll`: the tasks submitted via
`process(url, priority=...)` in order, the debug log events, and — when
`get_parser` failed for some basename — that basename (the loop, like the
Python `for` body, stops there: the exception propagates). -/
structure LoopResult where
  submitted : List Task
  logs : List LogEvent
  error : Option String
deriving DecidableEq

/-- The `for updated_file in updated_files` loop of `poll`. `registry` stands
for the parser registry (`get_parser`, from `brightsky.parsers`, not part of
the shown sources). Modelled from the spec: `get_parser` resolves a basename
to a parser class whose `PRIORITY` is the returned integer, and fails
(`UnknownFormat`) when no parser matches — here `none`. The pending-URL list
and the lock state are fixed for the whole loop, exactly as in the source
(`pending_urls` is computed once; submissions do not acquire locks). -/
def pollLoop (registry : String → Option Int) (pending_urls : List String)
    (q : QueueState) : List UpdatedFile → LoopResult
  | [] => ⟨[], [], none⟩
  | f :: rest =>
    let url := f.url
    if pending_urls.contains url then
      let r := pollLoop registry pending_urls q rest
      ⟨r.submitted, LogEvent.skipQueued url :: r.logs, r.error⟩
    else if q.isLocked url then
      let r := pollLoop registry pending_urls q rest
      ⟨r.submitted, LogEvent.skipRunning url :: r.logs, r.error⟩
    else
      match registry (basename url) with
      | none => ⟨[], [LogEvent.enqueueing url], some (basename url)⟩
      | some prio =>
        let r := pollLoop registry pending_urls q rest
        ⟨⟨"process", [url], prio⟩ :: r.submitted,
          LogEvent.enqueueing url :: r.logs, r.error⟩

/-- Result of one `poll` call: the value `poll` returns (the poller's
discovered files), the queue state afterwards, the log events, the submitted
tasks, and the propagated parser-resolution failure, if any (in which case
the Python function raises instead of returning; `returnedFiles` is then
only the value it would have returned). -/
structure PollResult where
  returnedFiles : List UpdatedFile
  queue : QueueState
  logs : List LogEvent
  submitted : List Task
  error : Option String
deriving DecidableEq

/-- `poll(enqueue)` from `tasks.py`, with the poller's result `updated_files`
and the queue state `q` passed explicitly. When `enqueue` is true it expires
locks older than 1800, logs the expired keys as a warning when there are any,
computes the pending `process` URLs once, runs the enqueue loop, and logs the
summary (unless the loop raised). When `enqueue` is false nothing but the
return of `updated_files` happens. -/
def poll (registry : String → Option Int) (enqueue : Bool)
    (updated_files : List UpdatedFile) (q : QueueState) : PollResult :=
  if enqueue then
    let expired := expireLocksKeys 1800 q
    let q1 := expireLocksState 1800 q
    let warnLogs :=
      if expired.isEmpty then [] else [LogEvent.expiredLocksWarning expired]
    let pending_urls := pendingProcessUrls q1
    let r := pollLoop registry pending_urls q1 updated_files
    let q2 := { q1 with pending := q1.pending ++ r.submitted }
    match r.error with
    | some b => ⟨updated_files, q2, warnLogs ++ r.logs, r.submitted, some b⟩
    | none =>
        ⟨updated_files, q2,
          warnLogs ++ r.logs ++
            [LogEvent.summary r.submitted.length
              (r.submitted.length + pending_urls.length)],
          r.submitted, none⟩
  else
    ⟨updated_files, q, [], [], none⟩

/-! ## Retention side (`clean`) -/

/-- A row of the `sources` catalogue. Timestamps are integers (the embedding
of SQL timestamps: only their order matters to `clean`). -/
structure Source where
  id : Nat
  wmo_station_id : String
  dwd_station_id : String
  observation_type : String
  first_record : Int
  last_record : Int
deriving DecidableEq

/-- A row of a time-series table (`weather` or `synop`); the measurement
columns are irrelevant to `clean` and omitted. -/
structure WeatherRecord where
  source_id : Nat
  timestamp : Int
deriving DecidableEq

/-- A row of the `parsed_files` ledger. -/
structure ParsedFile where
  url : String
  parsed_at : Int
deriving DecidableEq

/-- The portion of the database `clean` touches. -/
structure Database where
  sources : List Source
  weather : List WeatherRecord
  synop : List WeatherRecord
  parsed_files : List ParsedFile
deriving DecidableEq

/-- The row-selection predicate of
`DELETE FROM weather WHERE source_id = %s AND timestamp < %s`. -/
def deletePred (sid : Nat) (threshold : Int) (r : WeatherRecord) : Bool :=
  r.source_id == sid && decide (r.timestamp < threshold)

/-- Execute that `DELETE`: keep the rows the predicate does not select. -/
def deleteWeatherBefore (sid : Nat) (threshold : Int)
    (w : List WeatherRecord) : List WeatherRecord :=
  w.filter (fun r => !(deletePred sid threshold r))

/-- The rows fetched by the Pass A `SELECT`: for every join pair of a
`recent` and a `historical` source on the same `(wmo_station_id,
dwd_station_id)` with `s_recent.first_record < s_historical.last_record`,
the pair `(s_recent.id, s_historical.last_record)`. -/
def overlapRows (db : Database) : List (Nat × Int) :=
  db.sources.flatMap (fun sr =>
    db.sources.filterMap (fun sh =>
      if sr.observation_type == "recent" &&
          sh.observation_type == "historical" &&
          sr.wmo_station_id == sh.wmo_station_id &&
          sr.dwd_station_id == sh.dwd_station_id &&
          decide (sr.first_record < sh.last_record)
      then some (sr.id, sh.last_record)
      else none))

/-- Pass A of `clean`: fetch the overlap rows, then run one `DELETE` per
fetched row (the fetch happens before any deletion, as in the source). -/
def passA (db : Database) : Database :=
  { db with
    weather :=
      (overlapRows db).foldl (fun w p => deleteWeatherBefore p.1 p.2 w)
        db.weather }

/-- The timestamps of the rows of `table` with the given `source_id`
(the `GROUP BY source_id` group of the bounds-recomputation subquery). -/
def groupTimestamps (table : List WeatherRecord) (sid : Nat) : List Int :=
  (table.filter (fun r => r.source_id == sid)).map (fun r => r.timestamp)

/-- The effect of the bounds-recomputation `UPDATE` on one `sources` row:
when the table holds at least one row for this source id, set
`first_record`/`last_record` to the `MIN`/`MAX` timestamp of its group;
otherwise the `WHERE sources.id = record_range.source_id` clause does not
match and the row is untouched. -/
def updateBoundsOne (table : List WeatherRecord) (s : Source) : Source :=
  match groupTimestamps table s.id with
  | [] => s
  | t :: rest =>
    { s with first_record := rest.foldl min t, last_record := rest.foldl max t }

/-- The bounds-recomputation `UPDATE` over the whole `sources` table. -/
def updateBounds (table : List WeatherRecord) (sources : List Source) :
    List Source :=
  sources.map (updateBoundsOne table)

/-- The row-selection predicate of the Pass B `DELETE`: the row's source has
the given observation type and the row is older than `now` minus the
retention interval (intervals are in hours; only order matters). -/
def expiredPred (now : Int) (obs : String) (interval : Int)
    (sources : List Source) (r : WeatherRecord) : Bool :=
  sources.any (fun s => s.observation_type == obs && s.id == r.source_id) &&
    decide (r.timestamp < now - interval)

/-- Execute one Pass B `DELETE` against a time-series table. -/
def expireTable (now : Int) (obs : String) (interval : Int)
    (table : List WeatherRecord) (sources : List Source) :
    List WeatherRecord :=
  table.filter (fun r => !(expiredPred now obs interval sources r))

/-- The `weather` table after the two Pass B deletions for it, following
the insertion order of `expiry_intervals['weather']`: `forecast` rows kept
3 hours, then `current` rows kept 48 hours. -/
def passBWeather (now : Int) (db : Database) : List WeatherRecord :=
  expireTable now "current" 48 (expireTable now "forecast" 3 db.weather db.sources)
    db.sources

/-- The `synop` table after its Pass B deletion (`synop` rows kept
30 hours); it runs after the `weather` bounds update, so against the
already-updated `sources` (which has the same ids and observation types). -/
def passBSynop (now : Int) (db : Database) : List WeatherRecord :=
  expireTable now "synop" 30 db.synop (updateBounds (passBWeather now db) db.sources)

/-- Pass B of `clean`, following the insertion order of `expiry_intervals`:
delete expired `forecast` and `current` rows from `weather`, recompute the
bounds of every source with surviving `weather` rows, then delete expired
`synop` rows from `synop` and recompute the bounds of every source with
surviving `synop` rows. -/
def passB (now : Int) (db : Database) : Database :=
  { sources :=
      updateBounds (passBSynop now db)
        (updateBounds (passBWeather now db) db.sources),
    weather := passBWeather now db,
    synop := passBSynop now db,
    parsed_files := db.parsed_files }

/-- SQL `LIKE` matching on character lists: `%` matches any sequence, `_`
matches exactly one character, anything else matches itself. -/
def likeMatchAux : List Char → List Char → Bool
  | [], [] => true
  | [], _ :: _ => false
  | '%' :: ps, [] => likeMatchAux ps []
  | '%' :: ps, c :: s => likeMatchAux ps (c :: s) || likeMatchAux ('%' :: ps) s
  | _ :: _, [] => false
  | p :: ps, c :: s => (p == '_' || p == c) && likeMatchAux ps s
termination_by a b => a.length + b.length
decreasing_by all_goals simp_arith

/-- SQL `LIKE` matching on strings. -/
def likeMatch (pat s : String) : Bool :=
  likeMatchAux pat.toList s.toList

/-- The keep-predicate of Pass C: a ledger row is kept unless its URL
matches the pattern and it is older than its retention interval. -/
def parsedFilesKeep (now : Int) (pf : ParsedFile) : Bool :=
  !(likeMatch "%/Z__C_EDZW_%" pf.url && decide (pf.parsed_at < now - 168))

/-- Pass C of `clean`: `parsed_files_expiry_intervals` has the single entry
mapping the pattern `%/Z__C_EDZW_%` to 1 week (168 hours); delete the ledger
rows whose URL matches it and whose `parsed_at` is older than that. -/
def passC (now : Int) (db : Database) : Database :=
  { db with parsed_files := db.parsed_files.filter (parsedFilesKeep now) }

/-- `clean()` from `tasks.py`: the three passes in order, with the SQL
`current_timestamp` passed in as `now`. -/
def clean (now : Int) (db : Database) : Database :=
  passC now (passB now (passA db))

/-! ## Lemmas about the retention passes -/

theorem mem_deleteWeatherBefore {sid : Nat} {th : Int} {w : List WeatherRecord}
    {r : WeatherRecord} :
    r ∈ deleteWeatherBefore sid th w ↔
      r ∈ w ∧ ¬(r.source_id = sid ∧ r.timestamp < th) := by
  simp [deleteWeatherBefore, deletePred, List.mem_filter, not_and,
    imp_iff_not_or]

theorem mem_of_mem_delFold {rows : List (Nat × Int)} {w : List WeatherRecord}
    {r : WeatherRecord}
    (h : r ∈ rows.foldl (fun w p => deleteWeatherBefore p.1 p.2 w) w) :
    r ∈ w := by
  induction rows generalizing w with
  | nil => exact h
  | cons q qs ih => exact (mem_deleteWeatherBefore.mp (ih h)).1

theorem delFold_not_deleted {rows : List (Nat × Int)} {w : List WeatherRecord}
    {r : WeatherRecord} {p : Nat × Int} (hp : p ∈ rows)
    (h : r ∈ rows.foldl (fun w p => deleteWeatherBefore p.1 p.2 w) w) :
    ¬(r.source_id = p.1 ∧ r.timestamp < p.2) := by
  induction rows generalizing w with
  | nil => cases hp
  | cons q qs ih =>
    rcases List.mem_cons.mp hp with h1 | h2
    · subst h1
      exact (mem_deleteWeatherBefore.mp (mem_of_mem_delFold h)).2
    · exact ih h2 h

theorem delFold_keep {rows : List (Nat × Int)} {w : List WeatherRecord}
    {r : WeatherRecord} (hr : r ∈ w)
    (hall : ∀ p ∈ rows, ¬(r.source_id = p.1 ∧ r.timestamp < p.2)) :
    r ∈ rows.foldl (fun w p => deleteWeatherBefore p.1 p.2 w) w := by
  induction rows generalizing w with
  | nil => exact hr
  | cons q qs ih =>
    exact ih
      (mem_deleteWeatherBefore.mpr ⟨hr, hall q (List.mem_cons_self q qs)⟩)
      (fun p hp => hall p (List.mem_cons_of_mem q hp))

theorem delFold_eq_self {rows : List (Nat × Int)} {w : List WeatherRecord}
    (h : ∀ p ∈ rows, ∀ r ∈ w, ¬(r.source_id = p.1 ∧ r.timestamp < p.2)) :
    rows.foldl (fun w p => deleteWeatherBefore p.1 p.2 w) w = w := by
  induction rows generalizing w with
  | nil => rfl
  | cons q qs ih =>
    have h1 : deleteWeatherBefore q.1 q.2 w = w := by
      apply List.filter_eq_self.mpr
      intro r hr
      have h2 := h q (List.mem_cons_self q qs) r hr
      simp [deletePred, not_and, imp_iff_not_or] at h2 ⊢
      exact h2
    show List.foldl _ (deleteWeatherBefore q.1 q.2 w) qs = w
    rw [h1]
    exact ih (fun p hp r hr => h p (List.mem_cons_of_mem q hp) r hr)

theorem mem_overlapRows {db : Database} {p : Nat × Int} :
    p ∈ overlapRows db ↔
      ∃ sr ∈ db.sources, ∃ sh ∈ db.sources,
        sr.observation_type = "recent" ∧ sh.observation_type = "historical" ∧
        sr.wmo_station_id = sh.wmo_station_id ∧
        sr.dwd_station_id = sh.dwd_station_id ∧
        sr.first_record < sh.last_record ∧ p = (sr.id, sh.last_record) := by
  simp only [overlapRows, List.mem_flatMap, List.mem_filterMap,
    Option.ite_none_right_eq_some, Bool.and_eq_true, beq_iff_eq,
    decide_eq_true_eq, Option.some.injEq]
  constructor
  · rintro ⟨sr, hsr, sh, hsh, ⟨⟨⟨⟨h1, h2⟩, h3⟩, h4⟩, h5⟩, h6⟩
    exact ⟨sr, hsr, sh, hsh, h1, h2, h3, h4, h5, h6.symm⟩
  · rintro ⟨sr, hsr, sh, hsh, h1, h2, h3, h4, h5, h6⟩
    exact ⟨sr, hsr, sh, hsh, ⟨⟨⟨⟨h1, h2⟩, h3⟩, h4⟩, h5⟩, h6.symm⟩

theorem mem_of_mem_expireTable {now : Int} {obs : String} {interval : Int}
    {table : List WeatherRecord} {sources : List Source} {r : WeatherRecord}
    (h : r ∈ expireTable now obs interval table sources) : r ∈ table :=
  (List.mem_filter.mp h).1

theorem expiredPred_false_of_mem {now : Int} {obs : String} {interval : Int}
    {table : List WeatherRecord} {sources : List Source} {r : WeatherRecord}
    (h : r ∈ expireTable now obs interval table sources) :
    expiredPred now obs interval sources r = false := by
  have h2 := (List.mem_filter.mp h).2
  simpa using h2

theorem expireTable_eq_self {now : Int} {obs : String} {interval : Int}
    {table : List WeatherRecord} {sources : List Source}
    (h : ∀ r ∈ table, expiredPred now obs interval sources r = false) :
    expireTable now obs interval table sources = table := by
  apply List.filter_eq_self.mpr
  intro r hr
  simp [h r hr]

@[simp] theorem updateBoundsOne_id (t : List WeatherRecord) (s : Source) :
    (updateBoundsOne t s).id = s.id := by
  rcases h : groupTimestamps t s.id with _ | ⟨t0, rest⟩ <;>
    simp [updateBoundsOne, h]

@[simp] theorem updateBoundsOne_obs (t : List WeatherRecord) (s : Source) :
    (updateBoundsOne t s).observation_type = s.observation_type := by
  rcases h : groupTimestamps t s.id with _ | ⟨t0, rest⟩ <;>
    simp [updateBoundsOne, h]

@[simp] theorem updateBoundsOne_wmo (t : List WeatherRecord) (s : Source) :
    (updateBoundsOne t s).wmo_station_id = s.wmo_station_id := by
  rcases h : groupTimestamps t s.id with _ | ⟨t0, rest⟩ <;>
    simp [updateBoundsOne, h]

@[simp] theorem updateBoundsOne_dwd (t : List WeatherRecord) (s : Source) :
    (updateBoundsOne t s).dwd_station_id = s.dwd_station_id := by
  rcases h : groupTimestamps t s.id with _ | ⟨t0, rest⟩ <;>
    simp [updateBoundsOne, h]

theorem expiredPred_updateBounds (now : Int) (obs : String) (interval : Int)
    (t : List WeatherRecord) (l : List Source) (r : WeatherRecord) :
    expiredPred now obs interval (updateBounds t l) r =
      expiredPred now obs interval l r := by
  have hfun :
      ((fun s => s.observation_type == obs && s.id == r.source_id) ∘
        updateBoundsOne t) =
      (fun s : Source => s.observation_type == obs && s.id == r.source_id) := by
    funext s
    simp [Function.comp]
  simp [expiredPred, updateBounds, List.any_map, hfun]

theorem expireTable_updateBounds (now : Int) (obs : String) (interval : Int)
    (table t : List WeatherRecord) (l : List Source) :
    expireTable now obs interval table (updateBounds t l) =
      expireTable now obs interval table l := by
  simp [expireTable, expiredPred_updateBounds]

theorem mem_groupTimestamps {table : List WeatherRecord} {sid : Nat} {x : Int} :
    x ∈ groupTimestamps table sid ↔
      ∃ r ∈ table, r.source_id = sid ∧ r.timestamp = x := by
  simp [groupTimestamps, List.mem_map, List.mem_filter, beq_iff_eq, and_assoc]

theorem groupTimestamps_eq_nil {table : List WeatherRecord} {sid : Nat}
    (h : ∀ r ∈ table, r.source_id ≠ sid) : groupTimestamps table sid = [] := by
  unfold groupTimestamps
  rw [List.filter_eq_nil_iff.mpr]
  · rfl
  · intro r hr
    simp [h r hr]

/-! ## Fold-min / fold-max lemmas (for `MIN(timestamp)` / `MAX(timestamp)`) -/

theorem foldl_min_le_init (t : Int) (l : List Int) : l.foldl min t ≤ t := by
  induction l generalizing t with
  | nil => exact le_refl t
  | cons x xs ih => exact le_trans (ih (min t x)) (min_le_left t x)

theorem foldl_min_le_mem {x : Int} {l : List Int} (t : Int) (hx : x ∈ l) :
    l.foldl min t ≤ x := by
  induction l generalizing t with
  | nil => cases hx
  | cons y ys ih =>
    rcases List.mem_cons.mp hx with h1 | h2
    · subst h1
      exact le_trans (foldl_min_le_init (min t x) ys) (min_le_right t x)
    · exact ih (min t y) h2

theorem foldl_min_mem (t : Int) (l : List Int) : l.foldl min t ∈ t :: l := by
  induction l generalizing t with
  | nil => simp
  | cons x xs ih =>
    have h1 := ih (min t x)
    rcases List.mem_cons.mp h1 with h2 | h3
    · rcases min_choice t x with h4 | h4 <;> rw [List.foldl_cons, h2, h4] <;> simp
    · rw [List.foldl_cons]
      exact List.mem_cons_of_mem t (List.mem_cons_of_mem x h3)

theorem le_foldl_max_init (t : Int) (l : List Int) : t ≤ l.foldl max t := by
  induction l generalizing t with
  | nil => exact le_refl t
  | cons x xs ih => exact le_trans (le_max_left t x) (ih (max t x))

theorem le_foldl_max_mem {x : Int} {l : List Int} (t : Int) (hx : x ∈ l) :
    x ≤ l.foldl max t := by
  induction l generalizing t with
  | nil => cases hx
  | cons y ys ih =>
    rcases List.mem_cons.mp hx with h1 | h2
    · subst h1
      exact le_trans (le_max_right t x) (le_foldl_max_init (max t x) ys)
    · exact ih (max t y) h2

theorem foldl_max_le {B t : Int} {l : List Int} (ht : t ≤ B)
    (hl : ∀ x ∈ l, x ≤ B) : l.foldl max t ≤ B := by
  induction l generalizing t with
  | nil => exact ht
  | cons x xs ih =>
    exact ih (max_le ht (hl x (List.mem_cons_self x xs)))
      (fun y hy => hl y (List.mem_cons_of_mem x hy))

theorem foldl_max_mem (t : Int) (l : List Int) : l.foldl max t ∈ t :: l := by
  induction l generalizing t with
  | nil => simp
  | cons x xs ih =>
    have h1 := ih (max t x)
    rcases List.mem_cons.mp h1 with h2 | h3
    · rcases max_choice t x with h4 | h4 <;> rw [List.foldl_cons, h2, h4] <;> simp
    · rw [List.foldl_cons]
      exact List.mem_cons_of_mem t (List.mem_cons_of_mem x h3)

/-! ## Observers and lemmas for the scheduler -/

/-- How many of the discovered files carry the given URL. -/
def countUrl (url : String) (F : List UpdatedFile) : Nat :=
  (F.filter (fun f => f.url == url)).length

/-- How many of the given tasks are jobs for the given URL. -/
def countTasks (url : String) (l : List Task) : Nat :=
  (l.filter (fun t => t.args == [url])).length

theorem pendingProcessUrls_expire (maxAge : Nat) (q : QueueState) :
    pendingProcessUrls (expireLocksState maxAge q) = pendingProcessUrls q :=
  rfl

theorem isLocked_expire_false {maxAge : Nat} {q : QueueState} {key : String}
    (h : q.isLocked key = false) :
    (expireLocksState maxAge q).isLocked key = false := by
  simp only [QueueState.isLocked, expireLocksState, List.any_eq_false] at h ⊢
  intro kv hkv
  exact h kv (List.mem_of_mem_filter hkv)

theorem pollLoop_submitted_shape {registry : String → Option Int}
    {pending_urls : List String} {q : QueueState} :
    ∀ {F : List UpdatedFile} {t : Task},
      t ∈ (pollLoop registry pending_urls q F).submitted →
      ∃ f ∈ F, ∃ prio : Int, t = ⟨"process", [f.url], prio⟩ ∧
        pending_urls.contains f.url = false ∧ q.isLocked f.url = false := by
  intro F
  induction F with
  | nil =>
    intro t ht
    simp [pollLoop] at ht
  | cons f rest ih =>
    intro t ht
    cases h1 : pending_urls.contains f.url with
    | true =>
      simp only [pollLoop, h1, if_true] at ht
      obtain ⟨g, hg, prio, h⟩ := ih ht
      exact ⟨g, List.mem_cons_of_mem f hg, prio, h⟩
    | false =>
      cases h2 : q.isLocked f.url with
      | true =>
        simp only [pollLoop, h1, h2, Bool.false_eq_true, if_false, if_true]
          at ht
        obtain ⟨g, hg, prio, h⟩ := ih ht
        exact ⟨g, List.mem_cons_of_mem f hg, prio, h⟩
      | false =>
        rcases hreg : registry (basename f.url) with _ | prio
        · simp only [pollLoop, h1, h2, hreg, Bool.false_eq_true, if_false]
            at ht
          simp at ht
        · simp only [pollLoop, h1, h2, hreg, Bool.false_eq_true, if_false]
            at ht
          rcases List.mem_cons.mp ht with h3 | h4
          · exact ⟨f, List.mem_cons_self f rest, prio, h3, h1, h2⟩
          · obtain ⟨g, hg, prio2, h⟩ := ih h4
            exact ⟨g, List.mem_cons_of_mem f hg, prio2, h⟩

theorem pollLoop_error_none {registry : String → Option Int}
    {pending_urls : List String} {q : QueueState} :
    ∀ {F : List UpdatedFile},
      (∀ f ∈ F, (registry (basename f.url)).isSome = true) →
      (pollLoop registry pending_urls q F).error = none := by
  intro F
  induction F with
  | nil => intro _; rfl
  | cons f rest ih =>
    intro hres
    have hrest := fun g hg => hres g (List.mem_cons_of_mem f hg)
    cases h1 : pending_urls.contains f.url with
    | true => simpa only [pollLoop, h1, if_true] using ih hrest
    | false =>
      cases h2 : q.isLocked f.url with
      | true =>
        simpa only [pollLoop, h1, h2, Bool.false_eq_true, if_false, if_true]
          using ih hrest
      | false =>
        rcases hreg : registry (basename f.url) with _ | prio
        · have := hres f (List.mem_cons_self f rest)
          rw [hreg] at this
          cases this
        · simpa only [pollLoop, h1, h2, hreg, Bool.false_eq_true, if_false]
            using ih hrest

theorem pollLoop_count {registry : String → Option Int}
    {pending_urls : List String} {q : QueueState} {url : String}
    (hp : pending_urls.contains url = false) (hl : q.isLocked url = false) :
    ∀ {F : List UpdatedFile},
      (∀ f ∈ F, (registry (basename f.url)).isSome = true) →
      countTasks url (pollLoop registry pending_urls q F).submitted =
        countUrl url F := by
  intro F
  induction F with
  | nil => intro _; rfl
  | cons f rest ih =>
    intro hres
    have hrest := fun g hg => hres g (List.mem_cons_of_mem f hg)
    cases h1 : pending_urls.contains f.url with
    | true =>
      have hne : (f.url == url) = false := by
        cases h3 : f.url == url with
        | false => rfl
        | true =>
          rw [show f.url = url from by simpa using h3] at h1
          rw [h1] at hp
          cases hp
      simp only [pollLoop, h1, if_true, countUrl, List.filter_cons, hne,
        Bool.false_eq_true, if_false]
      exact ih hrest
    | false =>
      cases h2 : q.isLocked f.url with
      | true =>
        have hne : (f.url == url) = false := by
          cases h3 : f.url == url with
          | false => rfl
          | true =>
            rw [show f.url = url from by simpa using h3] at h2
            rw [h2] at hl
            cases hl
        simp only [pollLoop, h1, h2, Bool.false_eq_true, if_false, if_true,
          countUrl, List.filter_cons, hne]
        exact ih hrest
      | false =>
        rcases hreg : registry (basename f.url) with _ | prio
        · have := hres f (List.mem_cons_self f rest)
          rw [hreg] at this
          cases this
        · have harg : (([f.url] : List String) == [url]) = (f.url == url) := by
            cases h3 : f.url == url with
            | true => simp [show f.url = url from by simpa using h3]
            | false =>
              simp only [List.instBEq, List.beq]
              rw [h3]
              rfl
          simp only [pollLoop, h1, h2, hreg, Bool.false_eq_true, if_false,
            countTasks, countUrl, List.filter_cons, harg]
          cases h3 : f.url == url with
          | true =>
            simp only [if_true, List.length_cons]
            have := ih hrest
            simp only [countTasks, countUrl] at this
            rw [this]
          | false =>
            simp only [Bool.false_eq_true, if_false]
            exact ih hrest

theorem pollLoop_count_contained {registry : String → Option Int}
    {pending_urls : List String} {q : QueueState} {url : String}
    (hin : pending_urls.contains url = true) {F : List UpdatedFile} :
    countTasks url (pollLoop registry pending_urls q F).submitted = 0 := by
  unfold countTasks
  rw [List.length_eq_zero]
  rw [List.filter_eq_nil_iff]
  intro t ht
  obtain ⟨f, _, prio, rfl, hcf, _⟩ := pollLoop_submitted_shape ht
  simp only [beq_iff_eq, List.cons.injEq, and_true, decide_eq_true_eq]
  rintro rfl
  rw [hin] at hcf
  cases hcf

theorem exists_of_countTasks_pos {url : String} {l : List Task}
    (h : countTasks url l ≠ 0) : ∃ t ∈ l, t.args = [url] := by
  unfold countTasks at h
  rcases h2 : l.filter (fun t => t.args == [url]) with _ | ⟨t, rest⟩
  · rw [h2] at h
    cases h rfl
  · have ht : t ∈ l.filter (fun t => t.args == [url]) := by
      rw [h2]
      exact List.mem_cons_self t rest
    exact ⟨t, List.mem_of_mem_filter ht, by simpa using List.of_mem_filter ht⟩

theorem pendingProcessUrls_contains {q : QueueState} {t : Task} {url : String}
    (ht : t ∈ q.pending) (hname : t.name = "process")
    (hargs : t.args = [url]) :
    (pendingProcessUrls q).contains url = true := by
  have hmem : url ∈ pendingProcessUrls q := by
    simp only [pendingProcessUrls, List.mem_map, List.mem_filter]
    exact ⟨t, ⟨ht, by simp [hname]⟩, by simp [hargs]⟩
  exact List.elem_eq_true_of_mem hmem

theorem pollLoop_abort {registry : String → Option Int}
    {pending_urls : List String} {q : QueueState} {f : UpdatedFile}
    (h2 : pending_urls.contains f.url = false)
    (h3 : q.isLocked f.url = false)
    (h4 : registry (basename f.url) = none) :
    ∀ {F1 F2 : List UpdatedFile},
      (∀ g ∈ F1, pending_urls.contains g.url = true ∨
        q.isLocked g.url = true ∨ (registry (basename g.url)).isSome = true) →
      (pollLoop registry pending_urls q (F1 ++ f :: F2)).error =
        some (basename f.url) ∧
      ∀ t ∈ (pollLoop registry pending_urls q (F1 ++ f :: F2)).submitted,
        ∃ g ∈ F1, t.args = [g.url] := by
  intro F1
  induction F1 with
  | nil =>
    intro F2 _
    constructor
    · simp only [List.nil_append, pollLoop, h2, h3, h4, Bool.false_eq_true,
        if_false]
    · intro t ht
      simp only [List.nil_append, pollLoop, h2, h3, h4, Bool.false_eq_true,
        if_false] at ht
      simp at ht
  | cons g gs ih =>
    intro F2 hg
    have hgs := fun g2 hg2 => hg g2 (List.mem_cons_of_mem g hg2)
    obtain ⟨ihe, ihs⟩ := @ih F2 hgs
    cases hp : pending_urls.contains g.url with
    | true =>
      refine ⟨?_, ?_⟩
      · simpa only [List.cons_append, pollLoop, hp, if_true] using ihe
      · intro t ht
        simp only [List.cons_append, pollLoop, hp, if_true] at ht
        obtain ⟨g2, hg2, ha⟩ := ihs t ht
        exact ⟨g2, List.mem_cons_of_mem g hg2, ha⟩
    | false =>
      cases hlk : q.isLocked g.url with
      | true =>
        refine ⟨?_, ?_⟩
        · simpa only [List.cons_append, pollLoop, hp, hlk,
            Bool.false_eq_true, if_false, if_true] using ihe
        · intro t ht
          simp only [List.cons_append, pollLoop, hp, hlk,
            Bool.false_eq_true, if_false, if_true] at ht
          obtain ⟨g2, hg2, ha⟩ := ihs t ht
          exact ⟨g2, List.mem_cons_of_mem g hg2, ha⟩
      | false =>
        have hres : (registry (basename g.url)).isSome = true := by
          rcases hg g (List.mem_cons_self g gs) with hc | hc | hc
          · rw [hc] at hp
            cases hp
          · rw [hc] at hlk
            cases hlk
          · exact hc
        rcases hreg : registry (basename g.url) with _ | prio
        · rw [hreg] at hres
          cases hres
        · refine ⟨?_, ?_⟩
          · simpa only [List.cons_append, pollLoop, hp, hlk, hreg,
              Bool.false_eq_true, if_false] using ihe
          · intro t ht
            simp only [List.cons_append, pollLoop, hp, hlk, hreg,
              Bool.false_eq_true, if_false] at ht
            rcases List.mem_cons.mp ht with h5 | h6
            · exact ⟨g, List.mem_cons_self g gs, by rw [h5]⟩
            · obtain ⟨g2, hg2, ha⟩ := ihs t h6
              exact ⟨g2, List.mem_cons_of_mem g hg2, ha⟩

theorem poll_submitted_eq (registry : String → Option Int)
    (F : List UpdatedFile) (q0 : QueueState) :
    (poll registry true F q0).submitted =
      (pollLoop registry (pendingProcessUrls q0)
        (expireLocksState 1800 q0) F).submitted := by
  unfold poll
  simp only [if_true]
  split <;> rfl

theorem poll_error_eq (registry : String → Option Int)
    (F : List UpdatedFile) (q0 : QueueState) :
    (poll registry true F q0).error =
      (pollLoop registry (pendingProcessUrls q0)
        (expireLocksState 1800 q0) F).error := by
  unfold poll
  simp only [if_true]
  split
  · rename_i heq
    exact heq.symm
  · rename_i heq
    exact heq.symm

theorem poll_queue_pending (registry : String → Option Int)
    (F : List UpdatedFile) (q0 : QueueState) :
    (poll registry true F q0).queue.pending =
      q0.pending ++ (pollLoop registry (pendingProcessUrls q0)
        (expireLocksState 1800 q0) F).submitted := by
  unfold poll
  simp only [if_true]
  split <;> rfl

theorem poll_queue_locks (registry : String → Option Int)
    (F : List UpdatedFile) (q0 : QueueState) :
    (poll registry true F q0).queue.locks =
      q0.locks.filter (fun kv => !(decide (1800 < kv.2))) := by
  unfold poll
  simp only [if_true]
  split <;> rfl

theorem poll_returnedFiles (registry : String → Option Int) (e : Bool)
    (F : List UpdatedFile) (q0 : QueueState) :
    (poll registry e F q0).returnedFiles = F := by
  cases e
  · rfl
  · unfold poll
    simp only [if_true]
    split <;> rfl

theorem poll_logs_eq (registry : String → Option Int)
    (F : List UpdatedFile) (q0 : QueueState) :
    (poll registry true F q0).logs =
      (if (expireLocksKeys 1800 q0).isEmpty then []
        else [LogEvent.expiredLocksWarning (expireLocksKeys 1800 q0)]) ++
      (pollLoop registry (pendingProcessUrls q0)
        (expireLocksState 1800 q0) F).logs ++
      (match (pollLoop registry (pendingProcessUrls q0)
          (expireLocksState 1800 q0) F).error with
        | some _ => []
        | none =>
          [LogEvent.summary
            (pollLoop registry (pendingProcessUrls q0)
              (expireLocksState 1800 q0) F).submitted.length
            ((pollLoop registry (pendingProcessUrls q0)
              (expireLocksState 1800 q0) F).submitted.length +
              (pendingProcessUrls q0).length)]) := by
  unfold poll
  simp only [if_true]
  split
  · rename_i heq
    rw [pendingProcessUrls_expire] at heq
    rw [heq]
    simp [pendingProcessUrls_expire]
  · rename_i heq
    rw [pendingProcessUrls_expire] at heq
    rw [heq]
    simp [pendingProcessUrls_expire]

/-! ## Concrete fixtures for witnesses and counterexamples -/

/-- A registry that resolves every basename except `bad` (priority 7). -/
def regDemo : String → Option Int := fun b => if b = "bad" then none else some 7

/-- A queue with one pending `process` job, one fresh lock and one stale
lock (age 2000 > 1800). -/
def qDemo : QueueState :=
  ⟨[⟨"process", ["http://h/p"], 1⟩],
   [("http://h/l", 10), ("http://h/old", 2000)]⟩

def fileNew : UpdatedFile := ⟨"http://h/new", "fp1"⟩

def fileLocked : UpdatedFile := ⟨"http://h/l", "fp2"⟩

def fileBad : UpdatedFile := ⟨"http://h/bad", "fp3"⟩

def fileGood : UpdatedFile := ⟨"http://h/good", "fp4"⟩

def fileGoodTwo : UpdatedFile := ⟨"http://h/good2", "fp5"⟩

def emptyQueue : QueueState := ⟨[], []⟩

/-! ## Claim theorems: scheduler -/

/-- C1: enqueue deduplication is idempotent across cycles. If a URL occurs
once in the discovery result, every discovered basename resolves, and the
URL is neither pending nor locked at the start, then across two successive
`poll(enqueue=True)` calls — the second operating on the queue state the
first produced, with no job having started — exactly one job is submitted
for that URL: the second call finds it in the pending set and skips it. -/
theorem poll_enqueue_idempotent (registry : String → Option Int)
    (F : List UpdatedFile) (q0 : QueueState) (url : String)
    (hone : countUrl url F = 1)
    (hres : ∀ f ∈ F, (registry (basename f.url)).isSome = true)
    (hp : (pendingProcessUrls q0).contains url = false)
    (hl : q0.isLocked url = false) :
    countTasks url (poll registry true F q0).submitted +
      countTasks url
        (poll registry true F (poll registry true F q0).queue).submitted =
      1 := by
  have hl2 := @isLocked_expire_false 1800 q0 url hl
  have h1 : countTasks url (poll registry true F q0).submitted = 1 := by
    rw [poll_submitted_eq, pollLoop_count hp hl2 hres]
    exact hone
  have hpos : countTasks url (pollLoop registry (pendingProcessUrls q0)
      (expireLocksState 1800 q0) F).submitted ≠ 0 := by
    rw [pollLoop_count hp hl2 hres, hone]
    exact one_ne_zero
  obtain ⟨t, htmem, hargs⟩ := exists_of_countTasks_pos hpos
  obtain ⟨f, hf, prio, heq, hcp, hcl⟩ := pollLoop_submitted_shape htmem
  have hname : t.name = "process" := by rw [heq]
  have htp : t ∈ (poll registry true F q0).queue.pending := by
    rw [poll_queue_pending]
    exact List.mem_append_right _ htmem
  have hcont :
      (pendingProcessUrls (poll registry true F q0).queue).contains url =
        true :=
    pendingProcessUrls_contains htp hname hargs
  have h2 : countTasks url
      (poll registry true F (poll registry true F q0).queue).submitted = 0 := by
    rw [poll_submitted_eq]
    exact pollLoop_count_contained hcont
  rw [h1, h2]

/-- C1 witness: one fresh URL, discovered once, two successive calls. -/
theorem poll_enqueue_idempotent_witness :
    countTasks "http://h/new" (poll regDemo true [fileNew] qDemo).submitted +
      countTasks "http://h/new"
        (poll regDemo true [fileNew]
          (poll regDemo true [fileNew] qDemo).queue).submitted = 1 :=
  poll_enqueue_idempotent regDemo [fileNew] qDemo "http://h/new"
    (by decide) (by decide) (by decide) (by decide)

/-- C3 counterexample: the first discovered file has no parser and is
neither pending nor locked; `poll` raises (`error` is set) and the second,
perfectly resolvable file is never enqueued — the cycle does not continue,
contradicting the claim that only the failing file is skipped. -/
theorem poll_parser_failure_cex :
    (poll regDemo true [fileBad, fileGoodTwo] emptyQueue).error =
      some "bad" ∧
    (poll regDemo true [fileBad, fileGoodTwo] emptyQueue).submitted = [] := by
  constructor <;> rfl

/-- C3 amended: when parser resolution fails for a discovered file that is
neither pending nor locked (earlier files being each skipped or
resolvable), the whole poll cycle aborts there: the exception propagates
(`error` is the failing basename) and every submitted job belongs to a file
strictly before the failing one; no later file is processed. -/
theorem poll_parser_failure_aborts (registry : String → Option Int)
    (q0 : QueueState) (F1 F2 : List UpdatedFile) (f : UpdatedFile)
    (h1 : ∀ g ∈ F1, (pendingProcessUrls q0).contains g.url = true ∨
      (expireLocksState 1800 q0).isLocked g.url = true ∨
      (registry (basename g.url)).isSome = true)
    (h2 : (pendingProcessUrls q0).contains f.url = false)
    (h3 : (expireLocksState 1800 q0).isLocked f.url = false)
    (h4 : registry (basename f.url) = none) :
    (poll registry true (F1 ++ f :: F2) q0).error = some (basename f.url) ∧
    ∀ t ∈ (poll registry true (F1 ++ f :: F2) q0).submitted,
      ∃ g ∈ F1, t.args = [g.url] := by
  obtain ⟨he, hs⟩ := @pollLoop_abort registry (pendingProcessUrls q0)
    (expireLocksState 1800 q0) f h2 h3 h4 F1 F2 h1
  constructor
  · rw [poll_error_eq]
    exact he
  · intro t ht
    rw [poll_submitted_eq] at ht
    exact hs t ht

/-- C3 amended witness: a resolvable file, then the failing one, then a
resolvable file that is never reached. -/
theorem poll_parser_failure_aborts_witness :
    (poll regDemo true ([fileGood] ++ fileBad :: [fileGoodTwo])
        emptyQueue).error = some "bad" ∧
    ∀ t ∈ (poll regDemo true ([fileGood] ++ fileBad :: [fileGoodTwo])
        emptyQueue).submitted, ∃ g ∈ [fileGood], t.args = [g.url] := by
  have h := poll_parser_failure_aborts regDemo emptyQueue [fileGood]
    [fileGoodTwo] fileBad (by decide) (by decide) (by decide) (by decide)
  exact ⟨h.1, h.2⟩

/-- C4: lock respect — if the queue reports a URL as locked during the
cycle (i.e. after the initial lock expiry), no job is submitted for it,
regardless of the pending set. -/
theorem poll_lock_respect (registry : String → Option Int)
    (F : List UpdatedFile) (q0 : QueueState) (url : String)
    (hlock : (expireLocksState 1800 q0).isLocked url = true) :
    ∀ t ∈ (poll registry true F q0).submitted, t.args ≠ [url] := by
  intro t ht hargs
  rw [poll_submitted_eq] at ht
  obtain ⟨f, hf, prio, heq, hcp, hcl⟩ := pollLoop_submitted_shape ht
  subst heq
  have hfu : f.url = url := by simpa using hargs
  rw [hfu, hlock] at hcl
  cases hcl

/-- C4 witness: the locked URL is discovered but never submitted. -/
theorem poll_lock_respect_witness :
    (expireLocksState 1800 qDemo).isLocked "http://h/l" = true ∧
    ∀ t ∈ (poll regDemo true [fileLocked, fileGood] qDemo).submitted,
      t.args ≠ ["http://h/l"] :=
  ⟨by decide,
   poll_lock_respect regDemo [fileLocked, fileGood] qDemo "http://h/l"
     (by decide)⟩

/-- C8: lock expiry precedes enqueueing — after `poll(enqueue=True)` the
locks are exactly the input locks of age ≤ 1800 (every older lock was
force-expired before any submission, and submissions add none back); every
lock older than 1800 has its key in the expired list; and when that list is
nonempty it is logged as a warning that is the very first log event,
before any skip/enqueue/summary event. -/
theorem poll_lock_expiry_first (registry : String → Option Int)
    (F : List UpdatedFile) (q0 : QueueState) :
    (poll registry true F q0).queue.locks =
      q0.locks.filter (fun kv => !(decide (1800 < kv.2))) ∧
    (∀ kv ∈ q0.locks, 1800 < kv.2 → kv.1 ∈ expireLocksKeys 1800 q0) ∧
    (expireLocksKeys 1800 q0 ≠ [] →
      (poll registry true F q0).logs.head? =
        some (LogEvent.expiredLocksWarning (expireLocksKeys 1800 q0))) := by
  refine ⟨poll_queue_locks registry F q0, ?_, ?_⟩
  · intro kv hkv h
    simp only [expireLocksKeys, List.mem_map]
    exact ⟨kv, List.mem_filter.mpr ⟨hkv, by simpa using h⟩, rfl⟩
  · intro hne
    rw [poll_logs_eq]
    have hie : (expireLocksKeys 1800 q0).isEmpty = false := by
      rcases h : expireLocksKeys 1800 q0 with _ | ⟨a, l⟩
      · exact absurd h hne
      · rfl
    rw [hie]
    simp

/-- C8 witness: the stale lock of `qDemo` is expired and logged first. -/
theorem poll_lock_expiry_first_witness :
    (poll regDemo true [fileGood] qDemo).queue.locks =
      qDemo.locks.filter (fun kv => !(decide (1800 < kv.2))) ∧
    (∀ kv ∈ qDemo.locks, 1800 < kv.2 → kv.1 ∈ expireLocksKeys 1800 qDemo) ∧
    (poll regDemo true [fileGood] qDemo).logs.head? =
      some (LogEvent.expiredLocksWarning (expireLocksKeys 1800 qDemo)) := by
  have h := poll_lock_expiry_first regDemo [fileGood] qDemo
  exact ⟨h.1, h.2.1, h.2.2 (by decide)⟩

/-- C9: `poll(enqueue=False)` is a pure dry run — it returns the poller's
sequence unchanged and performs no lock expiry, no queue reads, no
submissions and no logging, leaving the queue untouched; and whenever a
`poll` call completes without raising, its return value is exactly the
poller's discovered sequence. -/
theorem poll_dry_run (registry : String → Option Int) (F : List UpdatedFile)
    (q0 : QueueState) :
    poll registry false F q0 =
      { returnedFiles := F, queue := q0, logs := [], submitted := [],
        error := none } ∧
    ∀ e : Bool, (poll registry e F q0).error = none →
      (poll registry e F q0).returnedFiles = F :=
  ⟨rfl, fun e _ => poll_returnedFiles registry e F q0⟩

/-- C9 witness: dry run on a concrete queue, and a completing enqueue run
returning its input sequence. -/
theorem poll_dry_run_witness :
    poll regDemo false [fileGood] qDemo =
      { returnedFiles := [fileGood], queue := qDemo, logs := [],
        submitted := [], error := none } ∧
    (poll regDemo true [fileGood] qDemo).returnedFiles = [fileGood] :=
  ⟨(poll_dry_run regDemo [fileGood] qDemo).1,
   (poll_dry_run regDemo [fileGood] qDemo).2 true (by decide)⟩

/-- C10: no within-cycle deduplication — the pending set is computed once,
so a URL that is neither pending nor locked at the start gets one job per
occurrence in the discovery sequence, and the summary log (the last log
event) reports each submission separately: `enqueued` submissions and a
queue size of `enqueued + |pending|`. -/
theorem poll_no_within_cycle_dedup (registry : String → Option Int)
    (F : List UpdatedFile) (q0 : QueueState) (url : String)
    (hres : ∀ f ∈ F, (registry (basename f.url)).isSome = true)
    (hp : (pendingProcessUrls q0).contains url = false)
    (hl : q0.isLocked url = false) :
    countTasks url (poll registry true F q0).submitted = countUrl url F ∧
    (poll registry true F q0).logs.getLast? =
      some (LogEvent.summary (poll registry true F q0).submitted.length
        ((poll registry true F q0).submitted.length +
          (pendingProcessUrls q0).length)) := by
  have hl2 := @isLocked_expire_false 1800 q0 url hl
  constructor
  · rw [poll_submitted_eq]
    exact pollLoop_count hp hl2 hres
  · rw [poll_logs_eq, poll_submitted_eq]
    simp only [pollLoop_error_none hres]
    exact List.getLast?_concat _

/-- C10 witness: the same fresh URL discovered twice in one cycle yields
two submissions, and the summary reports 2 enqueued and queue size 3. -/
theorem poll_no_within_cycle_dedup_witness :
    countTasks "http://h/new"
        (poll regDemo true [fileNew, fileNew] qDemo).submitted =
      countUrl "http://h/new" [fileNew, fileNew] ∧
    (poll regDemo true [fileNew, fileNew] qDemo).logs.getLast? =
      some (LogEvent.summary
        (poll regDemo true [fileNew, fileNew] qDemo).submitted.length
        ((poll regDemo true [fileNew, fileNew] qDemo).submitted.length +
          (pendingProcessUrls qDemo).length)) :=
  poll_no_within_cycle_dedup regDemo [fileNew, fileNew] qDemo "http://h/new"
    (by decide) (by decide) (by decide)

/-! ## Further lemmas about the retention passes -/

theorem updateBoundsOne_eq_self {table : List WeatherRecord} {s : Source}
    (hg : groupTimestamps table s.id = []) : updateBoundsOne table s = s := by
  unfold updateBoundsOne
  rw [hg]

theorem updateBoundsOne_first_last {t0 : Int} {rest : List Int}
    {table : List WeatherRecord} {s : Source}
    (hg : groupTimestamps table s.id = t0 :: rest) :
    (updateBoundsOne table s).first_record = rest.foldl min t0 ∧
    (updateBoundsOne table s).last_record = rest.foldl max t0 := by
  unfold updateBoundsOne
  rw [hg]
  exact ⟨rfl, rfl⟩

theorem foldl_min_le_cons {x t : Int} {l : List Int} (hx : x ∈ t :: l) :
    l.foldl min t ≤ x := by
  rcases List.mem_cons.mp hx with h | h
  · rw [h]
    exact foldl_min_le_init t l
  · exact foldl_min_le_mem t h

theorem le_foldl_max_cons {x t : Int} {l : List Int} (hx : x ∈ t :: l) :
    x ≤ l.foldl max t := by
  rcases List.mem_cons.mp hx with h | h
  · rw [h]
    exact le_foldl_max_init t l
  · exact le_foldl_max_mem t h

theorem passB_weather_eq (now : Int) (db : Database) :
    (passB now db).weather = passBWeather now db := rfl

theorem passB_synop_eq (now : Int) (db : Database) :
    (passB now db).synop = passBSynop now db := rfl

theorem passB_sources_map (now : Int) (db : Database) :
    (passB now db).sources =
      db.sources.map (fun s =>
        updateBoundsOne (passBSynop now db)
          (updateBoundsOne (passBWeather now db) s)) := by
  show updateBounds (passBSynop now db)
    (updateBounds (passBWeather now db) db.sources) = _
  rw [updateBounds, updateBounds, List.map_map]
  rfl

theorem clean_weather_eq (now : Int) (db : Database) :
    (clean now db).weather = passBWeather now (passA db) := rfl

theorem clean_synop_eq (now : Int) (db : Database) :
    (clean now db).synop = passBSynop now (passA db) := rfl

theorem clean_parsed_eq (now : Int) (db : Database) :
    (clean now db).parsed_files =
      db.parsed_files.filter (parsedFilesKeep now) := rfl

theorem clean_sources_map (now : Int) (db : Database) :
    (clean now db).sources =
      db.sources.map (fun s =>
        updateBoundsOne (passBSynop now (passA db))
          (updateBoundsOne (passBWeather now (passA db)) s)) := by
  show updateBounds (passBSynop now (passA db))
    (updateBounds (passBWeather now (passA db)) db.sources) = _
  rw [updateBounds, updateBounds, List.map_map]
  rfl

/-! ## Claim theorems: retention engine -/

/-- C2: overlap pruning. For a `recent` source and a `historical` source of
the same station with `first_record < last_record`, Pass A deletes every
`weather` row of the recent source older than the historical `last_record`
and keeps every row at or after it. The survival half relies on the data
model's key invariants (source ids are unique; one source per station and
observation type), passed as hypotheses. -/
theorem passA_overlap_pruning (db : Database) (sr sh : Source)
    (hsr : sr ∈ db.sources) (hsh : sh ∈ db.sources)
    (hro : sr.observation_type = "recent")
    (hho : sh.observation_type = "historical")
    (hw : sr.wmo_station_id = sh.wmo_station_id)
    (hd : sr.dwd_station_id = sh.dwd_station_id)
    (hfl : sr.first_record < sh.last_record)
    (hid : ∀ s ∈ db.sources, s.id = sr.id → s = sr)
    (huniq : ∀ s ∈ db.sources, s.observation_type = "historical" →
      s.wmo_station_id = sr.wmo_station_id →
      s.dwd_station_id = sr.dwd_station_id → s = sh) :
    ∀ r ∈ db.weather, r.source_id = sr.id →
      (r.timestamp < sh.last_record → r ∉ (passA db).weather) ∧
      (sh.last_record ≤ r.timestamp → r ∈ (passA db).weather) := by
  intro r hr hrid
  constructor
  · intro hts hmem
    have hpair : ((sr.id, sh.last_record) : Nat × Int) ∈ overlapRows db :=
      mem_overlapRows.mpr ⟨sr, hsr, sh, hsh, hro, hho, hw, hd, hfl, rfl⟩
    exact delFold_not_deleted hpair hmem ⟨hrid, hts⟩
  · intro hts
    apply delFold_keep hr
    intro p hp hcontra
    obtain ⟨sr2, hsr2, sh2, hsh2, hro2, hho2, hw2, hd2, hfl2, hpe⟩ :=
      mem_overlapRows.mp hp
    subst hpe
    obtain ⟨hcid, hcts⟩ := hcontra
    have hsame : sr2 = sr := hid sr2 hsr2 (hcid.symm.trans hrid)
    have hsh2w : sh2.wmo_station_id = sr.wmo_station_id := by
      rw [← hw2, hsame]
    have hsh2d : sh2.dwd_station_id = sr.dwd_station_id := by
      rw [← hd2, hsame]
    have hsh2eq : sh2 = sh := huniq sh2 hsh2 hho2 hsh2w hsh2d
    rw [hsh2eq] at hcts
    exact absurd hcts (not_lt.mpr hts)

/-- The spec's concrete scenario for C2: station `(10001, 01234)`, recent
source 1 with `first_record` at day 1, historical source 2 with
`last_record` at day 10, recent rows at days 2 and 15. -/
def dbC2 : Database :=
  ⟨[⟨1, "10001", "01234", "recent", 1, 15⟩,
    ⟨2, "10001", "01234", "historical", 0, 10⟩],
   [⟨1, 2⟩, ⟨1, 15⟩], [], []⟩

/-- C2 witness: the row at day 2 is deleted, the row at day 15 survives. -/
theorem passA_overlap_pruning_witness :
    (⟨1, 2⟩ : WeatherRecord) ∉ (passA dbC2).weather ∧
    (⟨1, 15⟩ : WeatherRecord) ∈ (passA dbC2).weather := by
  have h := passA_overlap_pruning dbC2
    ⟨1, "10001", "01234", "recent", 1, 15⟩
    ⟨2, "10001", "01234", "historical", 0, 10⟩
    (by decide) (by decide) (by decide) (by decide) (by decide) (by decide)
    (by decide) (by decide) (by decide)
  exact ⟨(h ⟨1, 2⟩ (by decide) (by decide)).1 (by decide),
         (h ⟨1, 15⟩ (by decide) (by decide)).2 (by decide)⟩

/-- C5: bounds recomputation. After Pass B, for the source at any index:
if it has surviving `synop` rows, its recorded bounds are exactly the
minimum and maximum timestamp over those rows (the `synop` update runs
last); if it has no `synop` rows but surviving `weather` rows, its bounds
are exactly the minimum and maximum over its surviving `weather` rows. For
a source whose rows live in a single table — the data model's shape — this
is exactly: `first_record = MIN(timestamp)`, `last_record =
MAX(timestamp)` over its surviving rows in that table. -/
theorem passB_bounds (now : Int) (db : Database) (i : Nat) (s s2 : Source)
    (hs : db.sources[i]? = some s)
    (hs2 : (passB now db).sources[i]? = some s2) :
    (groupTimestamps (passB now db).synop s.id ≠ [] →
      s2.first_record ∈ groupTimestamps (passB now db).synop s.id ∧
      (∀ x ∈ groupTimestamps (passB now db).synop s.id,
        s2.first_record ≤ x) ∧
      s2.last_record ∈ groupTimestamps (passB now db).synop s.id ∧
      (∀ x ∈ groupTimestamps (passB now db).synop s.id,
        x ≤ s2.last_record)) ∧
    (groupTimestamps (passB now db).synop s.id = [] →
      groupTimestamps (passB now db).weather s.id ≠ [] →
      s2.first_record ∈ groupTimestamps (passB now db).weather s.id ∧
      (∀ x ∈ groupTimestamps (passB now db).weather s.id,
        s2.first_record ≤ x) ∧
      s2.last_record ∈ groupTimestamps (passB now db).weather s.id ∧
      (∀ x ∈ groupTimestamps (passB now db).weather s.id,
        x ≤ s2.last_record)) := by
  rw [passB_sources_map, List.getElem?_map, hs] at hs2
  have hs2e : s2 = updateBoundsOne (passBSynop now db)
      (updateBoundsOne (passBWeather now db) s) := by
    simpa using hs2.symm
  have hid1 : (updateBoundsOne (passBWeather now db) s).id = s.id :=
    updateBoundsOne_id _ _
  rw [passB_synop_eq, passB_weather_eq]
  constructor
  · intro hne
    rcases hg : groupTimestamps (passBSynop now db) s.id with _ | ⟨t0, rest⟩
    · exact absurd hg hne
    · have hgroup : groupTimestamps (passBSynop now db)
          (updateBoundsOne (passBWeather now db) s).id = t0 :: rest := by
        rw [hid1]
        exact hg
      obtain ⟨hf, hlst⟩ := updateBoundsOne_first_last hgroup
      rw [hs2e, hf, hlst]
      refine ⟨foldl_min_mem t0 rest, ?_, foldl_max_mem t0 rest, ?_⟩
      · intro x hx
        exact foldl_min_le_cons hx
      · intro x hx
        exact le_foldl_max_cons hx
  · intro hgs hne
    have hstep2 : updateBoundsOne (passBSynop now db)
        (updateBoundsOne (passBWeather now db) s) =
        updateBoundsOne (passBWeather now db) s := by
      apply updateBoundsOne_eq_self
      rw [hid1]
      exact hgs
    rcases hg : groupTimestamps (passBWeather now db) s.id with _ | ⟨t0, rest⟩
    · exact absurd hg hne
    · obtain ⟨hf, hlst⟩ := updateBoundsOne_first_last hg
      rw [hs2e, hstep2, hf, hlst]
      refine ⟨foldl_min_mem t0 rest, ?_, foldl_max_mem t0 rest, ?_⟩
      · intro x hx
        exact foldl_min_le_cons hx
      · intro x hx
        exact le_foldl_max_cons hx

/-- A one-source database for the C5 witness: a `forecast` source with
stale cached bounds and two `weather` rows, one of which expires. -/
def dbB : Database :=
  ⟨[⟨1, "w", "d", "forecast", 0, 99⟩], [⟨1, 0⟩, ⟨1, 50⟩], [], []⟩

/-- C5 witness: at `now = 10` the `forecast` row at 0 expires (interval 3);
the surviving group is `[50]` and the recomputed bounds are its min and
max. -/
theorem passB_bounds_witness :
    (⟨1, "w", "d", "forecast", 50, 50⟩ : Source).first_record ∈
      groupTimestamps (passB 10 dbB).weather 1 ∧
    (∀ x ∈ groupTimestamps (passB 10 dbB).weather 1,
      (⟨1, "w", "d", "forecast", 50, 50⟩ : Source).first_record ≤ x) ∧
    (⟨1, "w", "d", "forecast", 50, 50⟩ : Source).last_record ∈
      groupTimestamps (passB 10 dbB).weather 1 ∧
    (∀ x ∈ groupTimestamps (passB 10 dbB).weather 1,
      x ≤ (⟨1, "w", "d", "forecast", 50, 50⟩ : Source).last_record) :=
  (passB_bounds 10 dbB 0 ⟨1, "w", "d", "forecast", 0, 99⟩
    ⟨1, "w", "d", "forecast", 50, 50⟩ (by decide) (by decide)).2
    (by decide) (by decide)

/-- C7: stale-bounds frame condition. The bounds-recomputation update
leaves any source without surviving rows in the processed table untouched;
`clean` never deletes or inserts `sources` rows; and `clean` modifies no
source field other than `first_record` and `last_record` — in particular a
source with no surviving rows in either time-series table comes out of
`clean` completely unchanged. -/
theorem clean_sources_frame (now : Int) (db : Database) :
    (∀ (t : List WeatherRecord) (s : Source),
      groupTimestamps t s.id = [] → updateBoundsOne t s = s) ∧
    (clean now db).sources.length = db.sources.length ∧
    ∀ (i : Nat) (s s2 : Source), db.sources[i]? = some s →
      (clean now db).sources[i]? = some s2 →
      s2.id = s.id ∧ s2.wmo_station_id = s.wmo_station_id ∧
      s2.dwd_station_id = s.dwd_station_id ∧
      s2.observation_type = s.observation_type ∧
      (groupTimestamps (clean now db).weather s.id = [] →
       groupTimestamps (clean now db).synop s.id = [] → s2 = s) := by
  refine ⟨fun t s hg => updateBoundsOne_eq_self hg, ?_, ?_⟩
  · rw [clean_sources_map, List.length_map]
  · intro i s s2 hs hs2
    rw [clean_sources_map, List.getElem?_map, hs] at hs2
    have hs2e : s2 = updateBoundsOne (passBSynop now (passA db))
        (updateBoundsOne (passBWeather now (passA db)) s) := by
      simpa using hs2.symm
    have hid1 : (updateBoundsOne (passBWeather now (passA db)) s).id = s.id :=
      updateBoundsOne_id _ _
    refine ⟨by rw [hs2e]; simp, by rw [hs2e]; simp, by rw [hs2e]; simp,
      by rw [hs2e]; simp, ?_⟩
    intro hgw hgs
    rw [clean_weather_eq] at hgw
    rw [clean_synop_eq] at hgs
    have h1 : updateBoundsOne (passBWeather now (passA db)) s = s :=
      updateBoundsOne_eq_self hgw
    have h2 : updateBoundsOne (passBSynop now (passA db)) s = s :=
      updateBoundsOne_eq_self hgs
    rw [hs2e, h1, h2]

/-- A source with no time-series rows at all, for the C7 witness. -/
def srcF : Source := ⟨1, "w", "d", "forecast", 5, 6⟩

/-- A database whose only source has zero rows, for the C7 witness. -/
def dbF : Database := ⟨[srcF], [], [], []⟩

/-- C7 witness: a source with zero surviving rows passes through `clean`
completely unchanged, and the sources table keeps its length. -/
theorem clean_sources_frame_witness :
    updateBoundsOne [] srcF = srcF ∧
    (clean 1000 dbF).sources.length = dbF.sources.length ∧
    srcF = srcF := by
  have h := clean_sources_frame 1000 dbF
  exact ⟨h.1 [] srcF (by decide), h.2.1,
    ((h.2.2 0 srcF srcF (by decide) (by decide)).2.2.2.2
      (by decide) (by decide))⟩

/-! ## Lemmas for the re-run idempotence of `clean` -/

theorem mem_weather_of_mem_cleanWeather {now : Int} {db : Database}
    {r : WeatherRecord} (h : r ∈ passBWeather now (passA db)) :
    r ∈ db.weather :=
  mem_of_mem_delFold (mem_of_mem_expireTable (mem_of_mem_expireTable h))

theorem mem_clean_sources {now : Int} {db : Database} {s2 : Source}
    (h : s2 ∈ (clean now db).sources) :
    ∃ s0 ∈ db.sources,
      s2 = updateBoundsOne (passBSynop now (passA db))
        (updateBoundsOne (passBWeather now (passA db)) s0) := by
  rw [clean_sources_map] at h
  obtain ⟨s0, hs0, he⟩ := List.mem_map.mp h
  exact ⟨s0, hs0, he.symm⟩

/-- A historical source with correct (upper-bounding) cached `last_record`
and no `synop` rows does not see its `last_record` grow through `clean`. -/
theorem clean_historical_last_le {now : Int} {db : Database} {s0 : Source}
    (hhist : ∀ r ∈ db.weather, r.source_id = s0.id →
      r.timestamp ≤ s0.last_record)
    (hsyn : ∀ r ∈ db.synop, r.source_id ≠ s0.id) :
    (updateBoundsOne (passBSynop now (passA db))
      (updateBoundsOne (passBWeather now (passA db)) s0)).last_record ≤
      s0.last_record := by
  have hid1 : (updateBoundsOne (passBWeather now (passA db)) s0).id = s0.id :=
    updateBoundsOne_id _ _
  have hgs : groupTimestamps (passBSynop now (passA db))
      (updateBoundsOne (passBWeather now (passA db)) s0).id = [] := by
    rw [hid1]
    apply groupTimestamps_eq_nil
    intro r hr
    exact hsyn r (mem_of_mem_expireTable hr)
  rw [updateBoundsOne_eq_self hgs]
  rcases hg : groupTimestamps (passBWeather now (passA db)) s0.id
    with _ | ⟨t0, rest⟩
  · rw [updateBoundsOne_eq_self hg]
  · obtain ⟨hf, hlst⟩ := updateBoundsOne_first_last hg
    rw [hlst]
    have hbound : ∀ x ∈ t0 :: rest, x ≤ s0.last_record := by
      intro x hx
      rw [← hg] at hx
      obtain ⟨r, hrw, hrid, hrts⟩ := mem_groupTimestamps.mp hx
      rw [← hrts]
      exact hhist r (mem_weather_of_mem_cleanWeather hrw) hrid
    exact foldl_max_le (hbound t0 (List.mem_cons_self t0 rest))
      (fun x hx => hbound x (List.mem_cons_of_mem t0 hx))

/-- Under consistent input bounds, Pass A finds nothing left to delete in a
database `clean` has already processed. -/
theorem passA_clean_fixed (now : Int) (db : Database)
    (hrec : ∀ s ∈ db.sources, s.observation_type = "recent" →
      ∀ r ∈ db.weather, r.source_id = s.id → s.first_record ≤ r.timestamp)
    (hhist : ∀ s ∈ db.sources, s.observation_type = "historical" →
      ∀ r ∈ db.weather, r.source_id = s.id → r.timestamp ≤ s.last_record)
    (hsyn : ∀ s ∈ db.sources, s.observation_type = "historical" →
      ∀ r ∈ db.synop, r.source_id ≠ s.id) :
    passA (clean now db) = clean now db := by
  have hfold : (overlapRows (clean now db)).foldl
      (fun w p => deleteWeatherBefore p.1 p.2 w) (clean now db).weather =
      (clean now db).weather := by
    apply delFold_eq_self
    intro p hp r hr
    obtain ⟨sr2, hsr2, sh2, hsh2, hro2, hho2, hw2s, hd2s, hfl2, hpe⟩ :=
      mem_overlapRows.mp hp
    subst hpe
    rintro ⟨hcid, hcts⟩
    obtain ⟨sr0, hsr0, hsr2e⟩ := mem_clean_sources hsr2
    obtain ⟨sh0, hsh0, hsh2e⟩ := mem_clean_sources hsh2
    have hsro : sr0.observation_type = "recent" := by
      rw [hsr2e] at hro2
      simpa using hro2
    have hsho : sh0.observation_type = "historical" := by
      rw [hsh2e] at hho2
      simpa using hho2
    have hsrid : sr2.id = sr0.id := by
      rw [hsr2e]
      simp
    have hwmo : sr0.wmo_station_id = sh0.wmo_station_id := by
      have h := hw2s
      rw [hsr2e, hsh2e] at h
      simpa using h
    have hdwd : sr0.dwd_station_id = sh0.dwd_station_id := by
      have h := hd2s
      rw [hsr2e, hsh2e] at h
      simpa using h
    have hble : sh2.last_record ≤ sh0.last_record := by
      rw [hsh2e]
      exact clean_historical_last_le
        (fun r hrw hrid => hhist sh0 hsh0 hsho r hrw hrid)
        (fun r hrs => hsyn sh0 hsh0 hsho r hrs)
    have hrdb : r ∈ db.weather := mem_weather_of_mem_cleanWeather hr
    have hrid0 : r.source_id = sr0.id := hcid.trans hsrid
    by_cases hcase : sr0.first_record < sh0.last_record
    · have hpair : ((sr0.id, sh0.last_record) : Nat × Int) ∈ overlapRows db :=
        mem_overlapRows.mpr
          ⟨sr0, hsr0, sh0, hsh0, hsro, hsho, hwmo, hdwd, hcase, rfl⟩
      have hrA : r ∈ (overlapRows db).foldl
          (fun w p => deleteWeatherBefore p.1 p.2 w) db.weather :=
        mem_of_mem_expireTable (mem_of_mem_expireTable hr)
      have hnot := delFold_not_deleted hpair hrA
      have hge : sh0.last_record ≤ r.timestamp := by
        by_contra hlt
        exact hnot ⟨hrid0, not_le.mp hlt⟩
      exact absurd hcts (not_lt.mpr (le_trans hble hge))
    · push_neg at hcase
      have hge : sh0.last_record ≤ r.timestamp :=
        le_trans hcase (hrec sr0 hsr0 hsro r hrdb hrid0)
      exact absurd hcts (not_lt.mpr (le_trans hble hge))
  unfold passA
  rw [hfold]

theorem expire_forecast_clean (now : Int) (db : Database) :
    expireTable now "forecast" 3 (clean now db).weather
      (clean now db).sources = (clean now db).weather := by
  show expireTable now "forecast" 3 (passBWeather now (passA db))
    (updateBounds (passBSynop now (passA db))
      (updateBounds (passBWeather now (passA db)) db.sources)) =
    passBWeather now (passA db)
  rw [expireTable_updateBounds, expireTable_updateBounds]
  apply expireTable_eq_self
  intro r hr
  exact expiredPred_false_of_mem (mem_of_mem_expireTable hr)

theorem expire_current_clean (now : Int) (db : Database) :
    expireTable now "current" 48 (clean now db).weather
      (clean now db).sources = (clean now db).weather := by
  show expireTable now "current" 48 (passBWeather now (passA db))
    (updateBounds (passBSynop now (passA db))
      (updateBounds (passBWeather now (passA db)) db.sources)) =
    passBWeather now (passA db)
  rw [expireTable_updateBounds, expireTable_updateBounds]
  apply expireTable_eq_self
  intro r hr
  exact expiredPred_false_of_mem hr

theorem expire_synop_clean (now : Int) (db : Database) :
    expireTable now "synop" 30 (clean now db).synop
      (updateBounds (clean now db).weather (clean now db).sources) =
      (clean now db).synop := by
  show expireTable now "synop" 30 (passBSynop now (passA db))
    (updateBounds (passBWeather now (passA db))
      (updateBounds (passBSynop now (passA db))
        (updateBounds (passBWeather now (passA db)) db.sources))) =
    passBSynop now (passA db)
  rw [expireTable_updateBounds, expireTable_updateBounds,
    expireTable_updateBounds]
  apply expireTable_eq_self
  intro r hr
  have h := expiredPred_false_of_mem hr
  rw [expiredPred_updateBounds] at h
  exact h

theorem passC_clean_fixed (now : Int) (db : Database) :
    (clean now db).parsed_files.filter (parsedFilesKeep now) =
      (clean now db).parsed_files := by
  apply List.filter_eq_self.mpr
  intro pf hpf
  rw [clean_parsed_eq] at hpf
  exact List.of_mem_filter hpf

/-- C6 counterexample inputs: a `synop` source whose only row is on the
age boundary (second run at a later `now` deletes it), and a stale
historical cache (its real rows reach timestamp 20 while `last_record`
says 10), which makes a second run at the *same* `now` delete again. -/
def dbS1 : Database := ⟨[⟨1, "w", "d", "synop", 0, 0⟩], [], [⟨1, 0⟩], []⟩

def dbS2 : Database :=
  ⟨[⟨1, "X", "Y", "recent", 5, 15⟩, ⟨2, "X", "Y", "historical", 0, 10⟩],
   [⟨1, 7⟩, ⟨1, 15⟩, ⟨2, 0⟩, ⟨2, 20⟩], [], []⟩

/-- C6 counterexample: the claim fails as stated. With `now` merely
non-decreasing (0 then 31), the second run deletes the `synop` row that
newly aged out; and even with the same `now` (100 twice), stale cached
bounds make the second run delete the recent row at 15: the first run
raises the historical source's `last_record` from 10 to its true maximum
20, so Pass A fires again. -/
theorem clean_rerun_cex :
    ((clean 0 dbS1).synop = [⟨1, 0⟩] ∧ (clean 31 (clean 0 dbS1)).synop = []) ∧
    ((clean 100 dbS2).weather = [⟨1, 15⟩, ⟨2, 0⟩, ⟨2, 20⟩] ∧
      (clean 100 (clean 100 dbS2)).weather = [⟨2, 0⟩, ⟨2, 20⟩]) := by
  exact ⟨⟨rfl, rfl⟩, rfl, rfl⟩

/-- C6 amended: running `clean` twice with the *same* `now` deletes nothing
in the second run — every table is unchanged across all three passes —
provided the input bounds are consistent with the data: every `recent`
source's `first_record` is a lower bound on its `weather` timestamps, every
`historical` source's `last_record` is an upper bound on its `weather`
timestamps, and no `synop` row belongs to a `historical` source. (The
counterexample shows both restrictions are needed: a later `now` expires
newly aged rows, and stale historical bounds re-trigger Pass A.) -/
theorem clean_rerun_idempotent (now : Int) (db : Database)
    (hrec : ∀ s ∈ db.sources, s.observation_type = "recent" →
      ∀ r ∈ db.weather, r.source_id = s.id → s.first_record ≤ r.timestamp)
    (hhist : ∀ s ∈ db.sources, s.observation_type = "historical" →
      ∀ r ∈ db.weather, r.source_id = s.id → r.timestamp ≤ s.last_record)
    (hsyn : ∀ s ∈ db.sources, s.observation_type = "historical" →
      ∀ r ∈ db.synop, r.source_id ≠ s.id) :
    (clean now (clean now db)).weather = (clean now db).weather ∧
    (clean now (clean now db)).synop = (clean now db).synop ∧
    (clean now (clean now db)).parsed_files = (clean now db).parsed_files := by
  have hA := passA_clean_fixed now db hrec hhist hsyn
  have hwB : passBWeather now (clean now db) = (clean now db).weather := by
    show expireTable now "current" 48 (expireTable now "forecast" 3
      (clean now db).weather (clean now db).sources) (clean now db).sources =
      (clean now db).weather
    rw [expire_forecast_clean, expire_current_clean]
  have hsyB : passBSynop now (clean now db) = (clean now db).synop := by
    show expireTable now "synop" 30 (clean now db).synop
      (updateBounds (passBWeather now (clean now db))
        (clean now db).sources) = (clean now db).synop
    rw [hwB]
    exact expire_synop_clean now db
  refine ⟨?_, ?_, ?_⟩
  · rw [clean_weather_eq, hA, hwB]
  · rw [clean_synop_eq, hA, hsyB]
  · rw [clean_parsed_eq]
    exact passC_clean_fixed now db

/-- The bounds-consistent variant of the stale scenario, for the C6
witness. -/
def dbS3 : Database :=
  ⟨[⟨1, "X", "Y", "recent", 5, 15⟩, ⟨2, "X", "Y", "historical", 0, 10⟩],
   [⟨1, 5⟩, ⟨1, 15⟩, ⟨2, 0⟩, ⟨2, 10⟩], [], []⟩

/-- C6 amended witness: with consistent bounds and equal `now`, the second
run deletes nothing. -/
theorem clean_rerun_idempotent_witness :
    (clean 100 (clean 100 dbS3)).weather = (clean 100 dbS3).weather ∧
    (clean 100 (clean 100 dbS3)).synop = (clean 100 dbS3).synop ∧
    (clean 100 (clean 100 dbS3)).parsed_files =
      (clean 100 dbS3).parsed_files :=
  clean_rerun_idempotent 100 dbS3 (by decide) (by decide) (by decide)

end BrightskyTasks
